import Mathlib

/-!
# Billing-scrubber claim validation engine: a shallow embedding

This file embeds the claim-validation engine of `src/App.py` (functions
`clean_code`, `load_master_data`, `run_validation`) into Lean and proves
properties of the embedding.

Modelling conventions:
* Python strings are `List Char` (`PyString`); casing/whitespace/digit tests
  are restricted to ASCII, which covers every string the engine manipulates.
* A pandas scalar cell is `PyVal`: `nan` (missing), a rational number
  (Excel numerics), or a string.
* Python exceptions that can escape `run_validation` (`TypeError` from
  comparing a string with a number, `ValueError` from `int(...)`) are
  modelled with `Except PyErr`.
* Python dicts built by comprehensions/`dict(zip ...)` are association
  lists whose lookup takes the *last* binding (later keys overwrite).
* Validation messages are modelled structurally (`Msg`), one constructor
  per message kind produced by the script.
-/

/-- Python strings, modelled as lists of characters. -/
abbrev PyString := List Char

/-- A pandas scalar cell value: missing (`NaN`), numeric, or string. -/
inductive PyVal where
  | nan : PyVal
  | num (q : ℚ) : PyVal
  | str (s : PyString) : PyVal
deriving DecidableEq

/-- `pd.notna`. -/
def notna : PyVal → Bool
  | .nan => false
  | _ => true

/-- ASCII uppercase of one character (Python `str.upper`, ASCII fragment). -/
def upChar (c : Char) : Char :=
  match c with
  | 'a' => 'A' | 'b' => 'B' | 'c' => 'C' | 'd' => 'D' | 'e' => 'E' | 'f' => 'F'
  | 'g' => 'G' | 'h' => 'H' | 'i' => 'I' | 'j' => 'J' | 'k' => 'K' | 'l' => 'L'
  | 'm' => 'M' | 'n' => 'N' | 'o' => 'O' | 'p' => 'P' | 'q' => 'Q' | 'r' => 'R'
  | 's' => 'S' | 't' => 'T' | 'u' => 'U' | 'v' => 'V' | 'w' => 'W' | 'x' => 'X'
  | 'y' => 'Y' | 'z' => 'Z' | other => other

/-- Python `str.upper` (ASCII fragment). -/
def upperL (l : PyString) : PyString := l.map upChar

/-- Drop trailing whitespace. -/
def dropTrail (l : PyString) : PyString :=
  (l.reverse.dropWhile Char.isWhitespace).reverse

/-- Python `str.strip`: drop leading and trailing whitespace. -/
def trimL (l : PyString) : PyString :=
  dropTrail (l.dropWhile Char.isWhitespace)

/-- Python `s.split('.')[0]`: everything before the first dot. -/
def beforeDot (l : PyString) : PyString :=
  l.takeWhile (fun c => c ≠ '.')

/-- Python `str.isdigit` (ASCII fragment): nonempty and all digits. -/
def isDigits (l : PyString) : Bool :=
  !l.isEmpty && l.all Char.isDigit

/-- Python `s.zfill(5)` for a sign-free string. -/
def zfill5 (l : PyString) : PyString :=
  List.replicate (5 - l.length) '0' ++ l

/-- Python `str(v)`.  `str` of a NaN cell is `"nan"`; an integral float
renders as `"n.0"` (pandas stores Excel numerics as floats).  The rendering
of non-integral rationals is a placeholder: no theorem below depends on it. -/
def pyStr : PyVal → PyString
  | .nan => "nan".data
  | .num q => if q.den = 1 then (toString q.num).data ++ ['.', '0'] else (toString q).data
  | .str s => s

/-- `s = str(val).split('.')[0].strip().upper()` followed by
`if s.isdigit() and len(s) < 5: s = s.zfill(5)`. -/
def cleanPipe (raw : PyString) : PyString :=
  let s := upperL (trimL (beforeDot raw))
  if isDigits s && s.length < 5 then zfill5 s else s

/-- `clean_code` from `src/App.py` (lines 9-17):

    if pd.isna(val) or str(val).strip() == "": return ""
    s = str(val).split('.')[0].strip().upper()
    if s.isdigit() and len(s) < 5: s = s.zfill(5)
    return s
-/
def clean_code (val : PyVal) : PyString :=
  match val with
  | .nan => []
  | v => if trimL (pyStr v) = [] then [] else cleanPipe (pyStr v)

/-! ## Master data (`load_master_data`, src/App.py lines 20-41) -/

/-- Lookup in an association list with Python-dict semantics: the *last*
binding for a key wins (later comprehension entries overwrite earlier ones). -/
def dlookup {α β : Type} [DecidableEq α] : List (α × β) → α → Option β
  | [], _ => none
  | (k, v) :: rest, key =>
    match dlookup rest key with
    | some r => some r
    | none => if k = key then some v else none

/-- A parsed worksheet as pandas sees it: the header row has been consumed
by `pd.read_excel`, so `rows` are the data rows and `ncols` the column
count.  Rows are conceptually rectangular of width `ncols`; a short row
reads as `NaN` beyond its end (`cellAt`). -/
structure Sheet where
  ncols : ℕ
  rows : List (List PyVal)
deriving DecidableEq

/-- Positional cell access within a row (missing cells are `NaN`). -/
def cellAt (r : List PyVal) (j : ℕ) : PyVal := r.getD j .nan

/-- A reference workbook: either unreadable (any I/O/parse failure, which
the script's `try` block turns into a `Master Data Error`), or a list of
named sheets in order. -/
inductive Workbook where
  | unreadable : Workbook
  | content (sheets : List (PyString × Sheet)) : Workbook

/-- `sheet in xls.sheet_names` followed by `pd.read_excel(xls, sheet)`:
find the (first) sheet with the given name. -/
def lookupSheet (sheets : List (PyString × Sheet)) (nm : PyString) : Option Sheet :=
  (sheets.find? (fun p => p.1 = nm)).map (fun p => p.2)

/-- `df.empty`: no rows or no columns. -/
def dfEmpty (sh : Sheet) : Bool := sh.rows.isEmpty || sh.ncols = 0

/-- The deep scan of one sheet: every non-NaN cell, cleaned
(`df_sheet[col].dropna().apply(clean_code)` over every column — the union
over columns equals the union over rows, and the Python target is a set,
so we collect row-major). -/
def sheetCodes (sh : Sheet) : List PyString :=
  sh.rows.flatMap (fun r => (r.filter notna).map clean_code)

/-- `{valid_cpts, mue, ncci}` as built by `load_master_data`. -/
structure MasterIndex where
  valid_cpts : List PyString
  mue : List (PyString × PyVal)
  ncci : List ((PyString × PyString) × PyString)
deriving DecidableEq

/-- `dict(zip(mue_df.iloc[:, 0].apply(clean_code), mue_df.iloc[:, 1]))`.
`none` models the `IndexError` (caught as a Master Data Error) raised by
`iloc[:, 1]` when a nonempty sheet has fewer than 2 columns.  An absent
sheet (`None` argument) or an empty frame yields the empty dict. -/
def buildMue (osh : Option Sheet) : Option (List (PyString × PyVal)) :=
  match osh with
  | none => some []
  | some sh =>
    if dfEmpty sh then some []
    else if sh.ncols < 2 then none
    else some (sh.rows.map (fun r => (clean_code (cellAt r 0), cellAt r 1)))

/-- `{(clean_code(r[0]), clean_code(r[1])): str(r[5]) for _, r in ncci_df.iterrows()}`.
`none` models the error raised by `r[5]` when a nonempty sheet has fewer
than 6 columns. -/
def buildNcci (osh : Option Sheet) :
    Option (List ((PyString × PyString) × PyString)) :=
  match osh with
  | none => some []
  | some sh =>
    if dfEmpty sh then some []
    else if sh.ncols < 6 then none
    else some (sh.rows.map (fun r =>
      ((clean_code (cellAt r 0), clean_code (cellAt r 1)), pyStr (cellAt r 5))))

/-- `load_master_data` from `src/App.py` (lines 20-41).  Returns `none`
(the script's `st.error(...); return None`) when the workbook is unreadable
or building either rule map raises. -/
def load_master_data (wb : Workbook) : Option MasterIndex :=
  match wb with
  | .unreadable => none
  | .content sheets => do
    let mue ← buildMue (lookupSheet sheets "MUE_Edits".data)
    let ncci ← buildNcci (lookupSheet sheets "NCCI_Edits".data)
    some { valid_cpts := sheets.flatMap (fun p => sheetCodes p.2),
           mue := mue, ncci := ncci }

/-! ## Python scalar operations used by the rule evaluator -/

/-- The exceptions that can escape `run_validation`. -/
inductive PyErr where
  | typeError : PyErr
  | valueError : PyErr
deriving DecidableEq

/-- Python `<` on strings: lexicographic by code point. -/
def strLt : PyString → PyString → Bool
  | [], [] => false
  | [], _ :: _ => true
  | _ :: _, [] => false
  | a :: as, b :: bs => if a < b then true else if a = b then strLt as bs else false

/-- Python `a > b` on cell values.  Numbers compare numerically (and any
comparison against `NaN` is `False`); strings compare lexicographically;
mixing a string with a number (or with `NaN`, a float) raises `TypeError`. -/
def pyGt (a b : PyVal) : Except PyErr Bool :=
  match a, b with
  | .num x, .num y => .ok (decide (y < x))
  | .num _, .nan => .ok false
  | .nan, .num _ => .ok false
  | .nan, .nan => .ok false
  | .str x, .str y => .ok (strLt y x)
  | _, _ => .error .typeError

/-- Python `v == 0` on cell values (total: no exception).  A string never
equals `0`; `NaN == 0` is `False`. -/
def pyEqZero : PyVal → Bool
  | .num q => q = 0
  | _ => false

/-- Python `int(s)` on a string: optional sign, then digits, with
surrounding whitespace allowed; anything else raises `ValueError`. -/
def parseIntPy (s : PyString) : Option ℤ :=
  let t := trimL s
  match t with
  | '+' :: ds => if isDigits ds then some (ds.foldl (fun a c => a * 10 + (c.toNat - 48)) 0 : ℕ) else none
  | '-' :: ds => if isDigits ds then some (-((ds.foldl (fun a c => a * 10 + (c.toNat - 48)) 0 : ℕ) : ℤ)) else none
  | ds => if isDigits ds then some (ds.foldl (fun a c => a * 10 + (c.toNat - 48)) 0 : ℕ) else none

/-- Rational truncation toward zero (Python `int` applied to a float). -/
def ratTrunc (q : ℚ) : ℤ := if q < 0 then -((-q).floor) else q.floor

/-- Python `int(v)` on a cell value: floats truncate toward zero, strings
must parse as an integer literal, `int(nan)` raises `ValueError`. -/
def pyInt : PyVal → Except PyErr ℤ
  | .num q => .ok (ratTrunc q)
  | .str s =>
    match parseIntPy s with
    | some n => .ok n
    | none => .error .valueError
  | .nan => .error .valueError

/-! ## Row decomposition (`run_validation` lines 49-76) -/

/-- `pat in s` for ASCII strings: contiguous-substring test. -/
def startsWithL : PyString → PyString → Bool
  | [], _ => true
  | _ :: _, [] => false
  | p :: ps, c :: cs => p = c && startsWithL ps cs

/-- Python `pat in s`: `pat` occurs contiguously in `s`. -/
def containsSub (pat : PyString) : PyString → Bool
  | [] => startsWithL pat []
  | c :: cs => startsWithL pat (c :: cs) || containsSub pat cs

/-- `'CPT' in col.upper()`. -/
def isCptHeader (col : PyString) : Bool := containsSub "CPT".data (upperL col)

/-- Python `str.split()` (no argument): split on whitespace runs, no empties. -/
def splitWSAux : PyString → PyString → List PyString
  | [], cur => if cur = [] then [] else [cur.reverse]
  | c :: cs, cur =>
    if c.isWhitespace then
      if cur = [] then splitWSAux cs [] else cur.reverse :: splitWSAux cs []
    else splitWSAux cs (c :: cur)

/-- Python `str.split()`. -/
def splitWS (l : PyString) : List PyString := splitWSAux l []

/-- `[m.strip().upper() for m in str(val).replace(',', ' ').split() if m.strip()]`. -/
def parseMods (s : PyString) : List PyString :=
  (splitWS (s.map (fun c => if c = ',' then ' ' else c))).filterMap
    (fun m => if trimL m = [] then none else some (upperL (trimL m)))

/-- One decomposed CPT group (the dict built at src/App.py lines 70-76). -/
structure CptGroup where
  code : PyString
  units : PyVal
  dxs : List PyString
  mods : List PyString
  is_orphan : Bool
deriving DecidableEq

/-- `units = val if pd.notna(val) and str(val).strip() != "" else 0`. -/
def unitsOf (v : PyVal) : PyVal :=
  if notna v && !(trimL (pyStr v)).isEmpty then v else .num 0

/-- One step of the span walk (src/App.py lines 59-68): a `UNIT` column
overwrites `units`, a non-NaN `DX` column appends a diagnosis, a non-NaN
`MODIFIER` column appends parsed modifiers; anything else is skipped. -/
def spanStep (acc : PyVal × List PyString × List PyString) (hv : PyString × PyVal) :
    PyVal × List PyString × List PyString :=
  let (units, dxs, mods) := acc
  let header := upperL hv.1
  let v := hv.2
  if containsSub "UNIT".data header then (unitsOf v, dxs, mods)
  else if containsSub "DX".data header && notna v then
    (units, dxs ++ [trimL (pyStr v)], mods)
  else if containsSub "MODIFIER".data header && notna v then
    (units, dxs, mods ++ parseMods (pyStr v))
  else acc

/-- Build the group for one CPT column from its cleaned code cell and the
span of (header, value) pairs up to the next CPT column. -/
def mkGroup (code : PyString) (span : List (PyString × PyVal)) : CptGroup :=
  let folded := span.foldl spanStep (.num 1, [], [])
  { code := code
    units := folded.1
    dxs := folded.2.1
    mods := folded.2.2
    is_orphan := decide (code = []) && (!folded.2.1.isEmpty || !folded.2.2.isEmpty) }

/-- A claim row, as the zipped (column name, cell value) pairs in column
order (`row[col]` indexed by the shared `col_names`). -/
abbrev Row := List (PyString × PyVal)

/-- The `cpt_groups` scan (src/App.py lines 51-76): every CPT column opens
a group whose span runs until the next CPT column. -/
def gatherGroups : Row → List CptGroup
  | [] => []
  | (col, v) :: rest =>
    if isCptHeader col then
      mkGroup (clean_code v) (rest.takeWhile (fun p => !isCptHeader p.1)) :: gatherGroups rest
    else gatherGroups rest

/-! ## Rule evaluator (`run_validation` lines 78-121) -/

/-- The per-code messages the evaluator can emit (checks 1-5), modelled
structurally: `missing_cpt` is "🚫 Missing CPT Code (Modifier/DX found)",
`missing_units` is "❗ Missing Units", `invalid_cpt` is "❌ Invalid CPT",
`mue_limit lim billed` is "⚠️ MUE Limit (lim) - Billed: billed", and
`bundled other` is "🚫 Bundled with other". -/
inductive Msg where
  | missing_cpt : Msg
  | missing_units : Msg
  | invalid_cpt : Msg
  | mue_limit (lim : PyVal) (billed : PyVal) : Msg
  | bundled (other : PyString) : Msg
deriving DecidableEq

/-- The bypass modifiers `['59', '25', '91']`. -/
def bypassMods : List PyString := ["59".data, "25".data, "91".data]

/-- `any(m in ['59', '25', '91'] for m in mods)`. -/
def hasBypass (mods : List PyString) : Bool :=
  mods.any (fun m => bypassMods.contains m)

/-- Check 4 (MUE): `if cpt in data['mue'] and u > data['mue'][cpt]`.
The comparison can raise `TypeError` (string vs number). -/
def check4 (data : MasterIndex) (cpt : PyString) (u : PyVal) : Except PyErr (List Msg) :=
  match dlookup data.mue cpt with
  | none => .ok []
  | some lim =>
    match pyGt u lim with
    | .error e => .error e
    | .ok b => .ok (if b then [.mue_limit lim u] else [])

/-- Check 5 (NCCI bundling): for every other code billed in the row, flag
`(other, cpt) in data['ncci']` unless a bypass modifier is present. -/
def check5 (data : MasterIndex) (allCodes : List PyString) (cpt : PyString)
    (mods : List PyString) : List Msg :=
  allCodes.filterMap (fun other =>
    if (dlookup data.ncci (other, cpt)).isSome && !hasBypass mods then
      some (.bundled other)
    else none)

/-- The `cpt_errors` list for one group (src/App.py lines 84-106): orphan
check, then — when a code is present — zero-units, validity, and (for valid
codes only) MUE and bundling. -/
def evalGroup (data : MasterIndex) (allCodes : List PyString) (g : CptGroup) :
    Except PyErr (List Msg) :=
  let e1 : List Msg := if g.is_orphan then [.missing_cpt] else []
  if g.code = [] then
    .ok e1
  else
    let e2 := e1 ++ (if pyEqZero g.units then [.missing_units] else [])
    if !(data.valid_cpts.contains g.code) then
      .ok (e2 ++ [.invalid_cpt])
    else
      match check4 data g.code g.units with
      | .error e => .error e
      | .ok e4 => .ok (e2 ++ e4 ++ check5 data allCodes g.code g.mods)

/-- One `row_summary` element: either the `[display]: err | err ...` line of
a flagged group, or the `[cpt]: ✅ Clean (int(u) units)` line. -/
inductive Entry where
  | errs (display : PyString) (msgs : List Msg) : Entry
  | clean (code : PyString) (units : ℤ) : Entry
deriving DecidableEq

/-- Row status. -/
inductive Status where
  | accepted : Status
  | rejected : Status
deriving DecidableEq

/-- `"Empty CPT"`. -/
def emptyCptLabel : PyString := "Empty CPT".data

/-- The per-group summary loop (src/App.py lines 82-114): flagged groups
set `is_rejected` and record their errors; clean groups with a code record
a clean line whose unit count is `int(u)` (which can raise `ValueError`). -/
def evalGroups (data : MasterIndex) (allCodes : List PyString) :
    List CptGroup → Except PyErr (List Entry × Bool)
  | [] => .ok ([], false)
  | g :: gs =>
    match evalGroup data allCodes g with
    | .error e => .error e
    | .ok msgs =>
      if msgs = [] then
        if g.code = [] then
          evalGroups data allCodes gs
        else
          match pyInt g.units with
          | .error e => .error e
          | .ok n =>
            match evalGroups data allCodes gs with
            | .error e => .error e
            | .ok (es, rej) => .ok (.clean g.code n :: es, rej)
      else
        match evalGroups data allCodes gs with
        | .error e => .error e
        | .ok (es, _) =>
          .ok (.errs (if g.code = [] then emptyCptLabel else g.code) msgs :: es, true)

/-- `all_codes_in_row = [g['code'] for g in cpt_groups if g['code']]`. -/
def rowCodes (gs : List CptGroup) : List PyString :=
  gs.filterMap (fun g => if g.code = [] then none else some g.code)

/-- Evaluate one claim row: decompose it, then run the summary loop; the
status is `REJECTED` exactly when `is_rejected` was set. -/
def evalRow (data : MasterIndex) (row : Row) : Except PyErr (List Entry × Status) :=
  match evalGroups data (rowCodes (gatherGroups row)) (gatherGroups row) with
  | .error e => .error e
  | .ok (es, rej) => .ok (es, if rej then .rejected else .accepted)

/-- `run_validation` from `src/App.py` (lines 44-121), restricted to the
engine outputs the claims are about: the per-row summary entries and
status.  (The returned DataFrame also carries the original row and the
UI-only `rejection_reasons` hotspot list, both omitted here.)  Rows are
processed in order; the first uncaught exception aborts the run. -/
def run_validation : List Row → MasterIndex → Except PyErr (List (List Entry × Status))
  | [], _ => .ok []
  | r :: rs, data =>
    match evalRow data r with
    | .error e => .error e
    | .ok res =>
      match run_validation rs data with
      | .error e => .error e
      | .ok rest => .ok (res :: rest)

/-! ## Definitions used only to state the claims -/

/-- The 26 lowercase ASCII letters (the only characters `upChar` moves). -/
def lowerAscii : List Char :=
  ['a','b','c','d','e','f','g','h','i','j','k','l','m',
   'n','o','p','q','r','s','t','u','v','w','x','y','z']

/-- The normalizer as the specification words it: "Missing or blank-after-trim
→ `\"\"`.  Otherwise: convert to string, truncate at the first `.`, trim
whitespace, uppercase.  If the result consists only of digits and has fewer
than 5 characters, left-pad with `0` to exactly 5 characters." -/
def normalizeSpec (val : PyVal) : PyString :=
  if val = .nan ∨ trimL (pyStr val) = [] then []
  else
    let s := upperL (trimL (beforeDot (pyStr val)))
    if isDigits s ∧ s.length < 5 then zfill5 s else s

/-- A nonempty rule sheet with too few columns for its positional reads —
the only in-sheet shape that makes `load_master_data` raise. -/
def malformedRuleSheet (k : ℕ) (osh : Option Sheet) : Prop :=
  ∃ sh, osh = some sh ∧ dfEmpty sh = false ∧ sh.ncols < k

/-- A cell acceptable in a units column: numeric, missing, or blank — i.e.
not a non-blank string (the one shape `run_validation` passes through raw
and can later crash on). -/
def unitCellOk : PyVal → Bool
  | .str s => (trimL s).isEmpty
  | _ => true

/-- Every units cell of the row is numeric, missing, or blank. -/
def rowUnitsOk (row : Row) : Bool :=
  row.all (fun hv => !containsSub "UNIT".data (upperL hv.1) || unitCellOk hv.2)

/-- Every stored unit-limit value is numeric or missing (not a string). -/
def mueValuesOk (data : MasterIndex) : Bool :=
  data.mue.all (fun kv => match kv.2 with | .str _ => false | _ => true)

/-- The span of a code position mentions a units column. -/
def spanHasUnit (span : List (PyString × PyVal)) : Bool :=
  span.any (fun hv => containsSub "UNIT".data (upperL hv.1))

/-- A present-but-blank/NaN units cell (the `else 0` branch of the span walk). -/
def blankCell (v : PyVal) : Bool :=
  !(notna v && !(trimL (pyStr v)).isEmpty)

/-- Two bundling maps with the same key set (each key of one occurs in the
other), regardless of the stored column-5 indicator values. -/
def sameKeys (l1 l2 : List ((PyString × PyString) × PyString)) : Prop :=
  (∀ k ∈ l1.map Prod.fst, k ∈ l2.map Prod.fst) ∧
  (∀ k ∈ l2.map Prod.fst, k ∈ l1.map Prod.fst)

/-! ## Lemmas about the character and string primitives -/

theorem upChar_eq_of_not_mem (c : Char) (h : c ∉ lowerAscii) : upChar c = c := by
  unfold upChar
  split
  all_goals first
    | rfl
    | (exact absurd (by decide) h)

theorem upChar_lower_facts : ∀ c ∈ lowerAscii,
    (upChar c).isWhitespace = c.isWhitespace ∧ (upChar c).isDigit = c.isDigit ∧
    upChar (upChar c) = upChar c ∧ ((upChar c = '.') ↔ (c = '.')) := by decide

theorem isWhitespace_upChar (c : Char) : (upChar c).isWhitespace = c.isWhitespace := by
  by_cases h : c ∈ lowerAscii
  · exact (upChar_lower_facts c h).1
  · rw [upChar_eq_of_not_mem c h]

theorem isDigit_upChar (c : Char) : (upChar c).isDigit = c.isDigit := by
  by_cases h : c ∈ lowerAscii
  · exact (upChar_lower_facts c h).2.1
  · rw [upChar_eq_of_not_mem c h]

theorem upChar_upChar (c : Char) : upChar (upChar c) = upChar c := by
  by_cases h : c ∈ lowerAscii
  · exact (upChar_lower_facts c h).2.2.1
  · rw [upChar_eq_of_not_mem c h, upChar_eq_of_not_mem c h]

theorem upChar_eq_dot_iff (c : Char) : upChar c = '.' ↔ c = '.' := by
  by_cases h : c ∈ lowerAscii
  · exact (upChar_lower_facts c h).2.2.2
  · rw [upChar_eq_of_not_mem c h]

theorem upChar_eq_of_isDigit (c : Char) (h : c.isDigit = true) : upChar c = c := by
  apply upChar_eq_of_not_mem
  intro hmem
  have : ∀ d ∈ lowerAscii, d.isDigit = false := by decide
  rw [this c hmem] at h
  exact Bool.false_ne_true h

theorem isDigit_not_isWhitespace (c : Char) (h : c.isDigit = true) :
    c.isWhitespace = false := by
  by_contra hw
  have hw' : c.isWhitespace = true := by
    cases hws : c.isWhitespace
    · exact absurd hws hw
    · rfl
  have : ((c = ' ' ∨ c = '\t') ∨ c = '\x0d') ∨ c = '\n' := by
    simpa [Char.isWhitespace] using hw'
  rcases this with ((h' | h') | h') | h' <;> subst h' <;> exact absurd h (by decide)

theorem dropWhile_eq_self_of_forall {α : Type} (p : α → Bool) (l : List α)
    (h : ∀ c ∈ l, p c = false) : List.dropWhile p l = l := by
  cases l with
  | nil => rfl
  | cons a as =>
    rw [List.dropWhile_cons_of_neg]
    simp [h a (by simp)]

theorem dropTrail_eq_self_of_forall (l : PyString)
    (h : ∀ c ∈ l, c.isWhitespace = false) : dropTrail l = l := by
  unfold dropTrail
  rw [dropWhile_eq_self_of_forall _ _ (fun c hc => h c (List.mem_reverse.mp hc)),
    List.reverse_reverse]

theorem trimL_eq_self_of_forall (l : PyString)
    (h : ∀ c ∈ l, c.isWhitespace = false) : trimL l = l := by
  unfold trimL
  rw [dropWhile_eq_self_of_forall _ _ h, dropTrail_eq_self_of_forall l h]

theorem dropTrail_idem (l : PyString) : dropTrail (dropTrail l) = dropTrail l := by
  unfold dropTrail
  rw [List.reverse_reverse, List.dropWhile_idempotent]

theorem exists_dropTrail_append (l : PyString) : ∃ t, l = dropTrail l ++ t := by
  obtain ⟨t, ht⟩ := List.dropWhile_suffix (l := l.reverse) (p := Char.isWhitespace)
  refine ⟨t.reverse, ?_⟩
  have : (t ++ List.dropWhile Char.isWhitespace l.reverse).reverse = l.reverse.reverse := by
    rw [ht]
  rw [List.reverse_reverse, List.reverse_append] at this
  exact this.symm

theorem mem_dropTrail {c : Char} {l : PyString} (h : c ∈ dropTrail l) : c ∈ l := by
  obtain ⟨t, ht⟩ := exists_dropTrail_append l
  rw [ht]
  exact List.mem_append_left t h

theorem mem_trimL {c : Char} {l : PyString} (h : c ∈ trimL l) : c ∈ l := by
  unfold trimL at h
  exact List.dropWhile_subset _ (mem_dropTrail h)

theorem trimL_trimL (l : PyString) : trimL (trimL l) = trimL l := by
  unfold trimL
  set y := l.dropWhile Char.isWhitespace with hy
  have h1 : (dropTrail y).dropWhile Char.isWhitespace = dropTrail y := by
    cases hdt : dropTrail y with
    | nil => simp
    | cons a as =>
      apply List.dropWhile_cons_of_neg
      obtain ⟨t, ht⟩ := exists_dropTrail_append y
      rw [hdt] at ht
      have h2 := List.head?_dropWhile_not Char.isWhitespace l
      rw [← hy] at h2
      rw [ht] at h2
      simp only [List.cons_append, List.head?_cons] at h2
      simp [h2]
  rw [h1, dropTrail_idem]

theorem dropTrail_upperL (l : PyString) :
    dropTrail (upperL l) = upperL (dropTrail l) := by
  unfold dropTrail upperL
  have hp : (Char.isWhitespace ∘ upChar) = Char.isWhitespace := by
    funext c
    exact isWhitespace_upChar c
  rw [← List.map_reverse, List.dropWhile_map, hp, List.map_reverse]

theorem trimL_upperL (l : PyString) : trimL (upperL l) = upperL (trimL l) := by
  unfold trimL
  have hp : (Char.isWhitespace ∘ upChar) = Char.isWhitespace := by
    funext c
    exact isWhitespace_upChar c
  rw [upperL, List.dropWhile_map, hp, ← upperL, dropTrail_upperL]

theorem upperL_upperL (l : PyString) : upperL (upperL l) = upperL l := by
  unfold upperL
  rw [List.map_map]
  exact List.map_congr_left (fun c _ => upChar_upChar c)

theorem cleanPipe_props (raw : PyString) :
    trimL (cleanPipe raw) = cleanPipe raw ∧
    upperL (cleanPipe raw) = cleanPipe raw ∧
    beforeDot (cleanPipe raw) = cleanPipe raw ∧
    (isDigits (cleanPipe raw) && decide ((cleanPipe raw).length < 5)) = false := by
  have hts : trimL (upperL (trimL (beforeDot raw))) = upperL (trimL (beforeDot raw)) := by
    rw [trimL_upperL, trimL_trimL]
  have hus : upperL (upperL (trimL (beforeDot raw))) = upperL (trimL (beforeDot raw)) := by
    rw [upperL_upperL]
  have hnodot : ∀ c ∈ upperL (trimL (beforeDot raw)), c ≠ '.' := by
    intro c hc
    obtain ⟨d, hd, hdc⟩ := List.mem_map.mp hc
    have hd' : d ≠ '.' := by
      have := List.mem_takeWhile_imp (mem_trimL hd)
      simpa using this
    intro h
    exact hd' ((upChar_eq_dot_iff d).mp (hdc.trans h))
  have hds : beforeDot (upperL (trimL (beforeDot raw))) = upperL (trimL (beforeDot raw)) := by
    rw [beforeDot, List.takeWhile_eq_self_iff]
    intro c hc
    simpa using hnodot c hc
  unfold cleanPipe
  by_cases hcond : (isDigits (upperL (trimL (beforeDot raw))) &&
      decide ((upperL (trimL (beforeDot raw))).length < 5)) = true
  · rw [if_pos hcond]
    obtain ⟨hdig, hlt⟩ := Bool.and_eq_true_iff.mp hcond
    have hlt' : (upperL (trimL (beforeDot raw))).length < 5 := of_decide_eq_true hlt
    have hall : ∀ c ∈ zfill5 (upperL (trimL (beforeDot raw))), c.isDigit = true := by
      intro c hc
      rcases List.mem_append.mp hc with h0 | hs
      · rw [List.eq_of_mem_replicate h0]
        decide
      · have := (Bool.and_eq_true_iff.mp hdig).2
        exact List.all_eq_true.mp this c hs
    have hlen : (zfill5 (upperL (trimL (beforeDot raw)))).length = 5 := by
      simp only [zfill5, List.length_append, List.length_replicate]
      omega
    refine ⟨?_, ?_, ?_, ?_⟩
    · exact trimL_eq_self_of_forall _ (fun c hc => isDigit_not_isWhitespace c (hall c hc))
    · show List.map upChar _ = _
      rw [List.map_congr_left (fun c hc => upChar_eq_of_isDigit c (hall c hc))]
      simp
    · rw [beforeDot, List.takeWhile_eq_self_iff]
      intro c hc
      have := hall c hc
      simp only [decide_eq_true_eq]
      intro h
      rw [h] at this
      exact absurd this (by decide)
    · rw [hlen]
      simp
  · rw [if_neg hcond]
    refine ⟨hts, hus, hds, ?_⟩
    exact Bool.eq_false_iff.mpr (fun h => hcond h)

theorem clean_code_cleanPipe_fix (raw : PyString) :
    clean_code (.str (cleanPipe raw)) = cleanPipe raw := by
  obtain ⟨h1, h2, h3, h4⟩ := cleanPipe_props raw
  show (if trimL (cleanPipe raw) = [] then [] else cleanPipe (cleanPipe raw)) = cleanPipe raw
  by_cases hr : cleanPipe raw = []
  · rw [h1, if_pos hr, hr]
  · rw [h1, if_neg hr]
    conv_lhs => rw [cleanPipe]
    rw [h3, h1, h2, h4]
    simp

/-- **C7**: the normalizer is idempotent — feeding `clean_code`'s output back
in (as the string cell it is) returns it unchanged. -/
theorem clean_code_idem (v : PyVal) : clean_code (.str (clean_code v)) = clean_code v := by
  have key : clean_code v = [] ∨ clean_code v = cleanPipe (pyStr v) := by
    cases v with
    | nan => exact Or.inl rfl
    | num q =>
      by_cases h : trimL (pyStr (PyVal.num q)) = []
      · exact Or.inl (by simp [clean_code, h])
      · exact Or.inr (by simp [clean_code, h])
    | str s =>
      by_cases h : trimL (pyStr (PyVal.str s)) = []
      · exact Or.inl (by simp [clean_code, h])
      · exact Or.inr (by simp [clean_code, h])
  rcases key with h | h
  · rw [h]
    decide
  · rw [h]
    exact clean_code_cleanPipe_fix (pyStr v)

/-- **C6**: `clean_code` agrees with the spec's description of the normalizer
(missing/blank ↦ `""`; otherwise stringify, truncate at the first `.`, trim,
uppercase, and zero-pad all-digit results shorter than 5 to width 5), and the
spec's concrete examples hold. -/
theorem clean_code_matches_spec :
    (∀ v, clean_code v = normalizeSpec v) ∧
    clean_code (.str "100".data) = "00100".data ∧
    clean_code (.str "11045.0".data) = "11045".data ∧
    clean_code (.str " 11045 ".data) = "11045".data := by
  refine ⟨fun v => ?_, by decide, by decide, by decide⟩
  cases v with
  | nan => simp [clean_code, normalizeSpec]
  | num q =>
    by_cases h : trimL (pyStr (PyVal.num q)) = [] <;>
      simp [clean_code, normalizeSpec, cleanPipe, h]
  | str s =>
    by_cases h : trimL (pyStr (PyVal.str s)) = [] <;>
      simp [clean_code, normalizeSpec, cleanPipe, h]

/-! ## Lemmas about the rule evaluator -/

theorem dlookup_mem {α β : Type} [DecidableEq α] (l : List (α × β)) (k : α) (v : β)
    (h : dlookup l k = some v) : (k, v) ∈ l := by
  induction l with
  | nil => simp [dlookup] at h
  | cons p rest ih =>
    obtain ⟨k', v'⟩ := p
    rw [dlookup] at h
    cases hrest : dlookup rest k with
    | some r =>
      rw [hrest] at h
      exact List.mem_cons_of_mem _ (ih (hrest.trans h))
    | none =>
      rw [hrest] at h
      by_cases hk : k' = k
      · rw [if_pos hk] at h
        obtain rfl := Option.some.inj h
        rw [hk]
        exact List.mem_cons_self _ _
      · rw [if_neg hk] at h
        exact absurd h (by simp)

theorem dlookup_isSome_iff {α β : Type} [DecidableEq α] (l : List (α × β)) (k : α) :
    (dlookup l k).isSome = true ↔ k ∈ l.map Prod.fst := by
  induction l with
  | nil => simp [dlookup]
  | cons p rest ih =>
    obtain ⟨k', v'⟩ := p
    rw [dlookup]
    cases hrest : dlookup rest k with
    | some r =>
      simp only [Option.isSome_some, true_iff]
      rw [hrest] at ih
      exact List.mem_cons_of_mem _ (by simpa using ih)
    | none =>
      rw [hrest] at ih
      by_cases hk : k' = k
      · simp [if_pos hk, hk]
      · simp only [if_neg hk, List.map_cons, List.mem_cons]
        simp only [Option.isSome_none] at ih ⊢
        constructor
        · intro h
          exact Bool.noConfusion h
        · rintro (h | h)
          · exact absurd h.symm hk
          · exact ih.mpr h

/-- Check 4 returns (when it does not raise) either nothing or a single
MUE-limit message. -/
theorem check4_shape (data : MasterIndex) (cpt : PyString) (u : PyVal) (l : List Msg)
    (h : check4 data cpt u = .ok l) :
    l = [] ∨ ∃ lim, l = [Msg.mue_limit lim u] := by
  rw [check4] at h
  cases hdl : dlookup data.mue cpt with
  | none =>
    rw [hdl] at h
    exact Or.inl (by simpa using h.symm)
  | some lim =>
    rw [hdl] at h
    dsimp only at h
    cases hgt : pyGt u lim with
    | error e =>
      rw [hgt] at h
      exact absurd h (by simp)
    | ok b =>
      rw [hgt] at h
      cases b with
      | false => exact Or.inl (by simpa using h.symm)
      | true => exact Or.inr ⟨lim, by simpa using h.symm⟩

/-- Membership in the bundling-check output. -/
theorem mem_check5 (data : MasterIndex) (allCodes : List PyString) (cpt : PyString)
    (mods : List PyString) (other : PyString) :
    Msg.bundled other ∈ check5 data allCodes cpt mods ↔
      other ∈ allCodes ∧ (dlookup data.ncci (other, cpt)).isSome = true ∧
        hasBypass mods = false := by
  rw [check5]
  simp only [List.mem_filterMap]
  constructor
  · rintro ⟨c, hc, hf⟩
    by_cases hcond : ((dlookup data.ncci (c, cpt)).isSome && !hasBypass mods) = true
    · rw [if_pos hcond] at hf
      obtain rfl := Msg.bundled.inj (Option.some.inj hf)
      obtain ⟨h1, h2⟩ := Bool.and_eq_true_iff.mp hcond
      exact ⟨hc, h1, by simpa using h2⟩
    · rw [if_neg hcond] at hf
      exact absurd hf (by simp)
  · rintro ⟨hmem, hl, hb⟩
    exact ⟨other, hmem, by simp [hl, hb]⟩

/-- Every bundling message is a `bundled`. -/
theorem check5_all_bundled (data : MasterIndex) (allCodes : List PyString)
    (cpt : PyString) (mods : List PyString) (m : Msg)
    (h : m ∈ check5 data allCodes cpt mods) : ∃ o, m = Msg.bundled o := by
  rw [check5] at h
  obtain ⟨c, _, hf⟩ := List.mem_filterMap.mp h
  by_cases hcond : ((dlookup data.ncci (c, cpt)).isSome && !hasBypass mods) = true
  · rw [if_pos hcond] at hf
    exact ⟨c, (Option.some.inj hf).symm⟩
  · rw [if_neg hcond] at hf
    exact absurd hf (by simp)

theorem evalGroup_nil_code_eq (data : MasterIndex) (allCodes : List PyString)
    (g : CptGroup) (h : g.code = []) :
    evalGroup data allCodes g = .ok (if g.is_orphan then [Msg.missing_cpt] else []) := by
  simp [evalGroup, h]

theorem evalGroup_invalid_eq (data : MasterIndex) (allCodes : List PyString)
    (g : CptGroup) (h1 : ¬ g.code = []) (h2 : data.valid_cpts.contains g.code = false) :
    evalGroup data allCodes g =
      .ok ((if g.is_orphan then [Msg.missing_cpt] else []) ++
           (if pyEqZero g.units then [Msg.missing_units] else []) ++ [Msg.invalid_cpt]) := by
  have h2' : g.code ∉ data.valid_cpts := by simpa using h2
  simp [evalGroup, h1, h2']

theorem evalGroup_valid_eq (data : MasterIndex) (allCodes : List PyString)
    (g : CptGroup) (e4 : List Msg) (h1 : ¬ g.code = [])
    (h2 : data.valid_cpts.contains g.code = true)
    (h4 : check4 data g.code g.units = .ok e4) :
    evalGroup data allCodes g =
      .ok ((if g.is_orphan then [Msg.missing_cpt] else []) ++
           (if pyEqZero g.units then [Msg.missing_units] else []) ++ e4 ++
           check5 data allCodes g.code g.mods) := by
  have h2' : g.code ∈ data.valid_cpts := by simpa using h2
  simp [evalGroup, h1, h2', h4]

/-- **C3**: an entry whose (nonempty) code is not in the valid-code set gets
`INVALID_CODE` and never a unit-limit or bundling message — checks 4-5 are
skipped for it. -/
theorem evalGroup_invalid_skips (data : MasterIndex) (allCodes : List PyString)
    (g : CptGroup) (msgs : List Msg) (h1 : g.code ≠ [])
    (h2 : data.valid_cpts.contains g.code = false)
    (h : evalGroup data allCodes g = .ok msgs) :
    Msg.invalid_cpt ∈ msgs ∧ (∀ lim billed, Msg.mue_limit lim billed ∉ msgs) ∧
      (∀ other, Msg.bundled other ∉ msgs) := by
  rw [evalGroup_invalid_eq data allCodes g h1 h2] at h
  obtain rfl := Except.ok.inj h
  refine ⟨by simp, ?_, ?_⟩
  · intro lim billed hm
    rcases List.mem_append.mp hm with hm' | hm'
    · rcases List.mem_append.mp hm' with hm2 | hm2 <;> revert hm2 <;> split <;> simp
    · simp at hm'
  · intro other hm
    rcases List.mem_append.mp hm with hm' | hm'
    · rcases List.mem_append.mp hm' with hm2 | hm2 <;> revert hm2 <;> split <;> simp
    · simp at hm'

theorem evalGroup_invalid_skips_witness :
    Msg.invalid_cpt ∈ [Msg.invalid_cpt] ∧
      (∀ lim billed, Msg.mue_limit lim billed ∉ ([Msg.invalid_cpt] : List Msg)) ∧
      (∀ other, Msg.bundled other ∉ ([Msg.invalid_cpt] : List Msg)) :=
  evalGroup_invalid_skips { valid_cpts := ["00100".data], mue := [], ncci := [] } []
    { code := "99999".data, units := .num 1, dxs := [], mods := [], is_orphan := false }
    [Msg.invalid_cpt] (by decide) (by decide) rfl

/-- **C2 (amended)**: for an entry with a nonempty valid code, `BUNDLED_WITH
other` is emitted exactly when `other` is among the row's billed codes,
`(other, code)` is a key of the bundling map, and no bypass modifier
(59/25/91) is present.  The check is asymmetric — only `(other, code)` is
consulted — and because the entry's own code occurs among the row's codes,
the self-pair `(code, code)` fires as soon as the code appears at all. -/
theorem evalGroup_bundled_iff (data : MasterIndex) (allCodes : List PyString)
    (g : CptGroup) (msgs : List Msg) (other : PyString)
    (h1 : g.code ≠ []) (h2 : data.valid_cpts.contains g.code = true)
    (h : evalGroup data allCodes g = .ok msgs) :
    Msg.bundled other ∈ msgs ↔
      other ∈ allCodes ∧ (dlookup data.ncci (other, g.code)).isSome = true ∧
        hasBypass g.mods = false := by
  cases h4 : check4 data g.code g.units with
  | error e =>
    have h2' : g.code ∈ data.valid_cpts := by simpa using h2
    rw [evalGroup] at h
    simp [h1, h2', h4] at h
  | ok e4 =>
    rw [evalGroup_valid_eq data allCodes g e4 h1 h2 h4] at h
    obtain rfl := Except.ok.inj h
    rw [← mem_check5 data allCodes g.code g.mods other]
    constructor
    · intro hm
      rcases List.mem_append.mp hm with hm' | hm'
      · exfalso
        rcases List.mem_append.mp hm' with hm2 | hm2
        · rcases List.mem_append.mp hm2 with hm3 | hm3 <;> revert hm3 <;> split <;> simp
        · rcases check4_shape data g.code g.units e4 h4 with rfl | ⟨lim, rfl⟩
          · simp at hm2
          · simp at hm2
      · exact hm'
    · intro hr
      exact List.mem_append.mpr (Or.inr hr)

theorem evalGroup_bundled_iff_witness :
    (Msg.bundled "11045".data ∈ [Msg.bundled "11045".data] ↔
      "11045".data ∈ ["11045".data, "99213".data] ∧
        (dlookup [(("11045".data, "99213".data), "1".data)]
          ("11045".data, "99213".data)).isSome = true ∧
        hasBypass [] = false) :=
  evalGroup_bundled_iff
    { valid_cpts := ["11045".data, "99213".data], mue := [],
      ncci := [(("11045".data, "99213".data), "1".data)] }
    ["11045".data, "99213".data]
    { code := "99213".data, units := .num 1, dxs := [], mods := [], is_orphan := false }
    [Msg.bundled "11045".data] "11045".data (by decide) (by decide) rfl

/-- **C2, counterexample to the claim as stated**: with the self-pair
`(11045, 11045)` in the bundling map and a row in which `11045` appears
exactly *once*, the evaluator still emits `BUNDLED_WITH(11045)` (and rejects
the row) — the claim's "self-pair only when the code appears twice" is wrong. -/
theorem evalGroup_selfPair_once_cex :
    rowCodes (gatherGroups [("CPT1".data, .str "11045".data)]) = ["11045".data] ∧
    evalRow
      { valid_cpts := ["11045".data], mue := [],
        ncci := [(("11045".data, "11045".data), "1".data)] }
      [("CPT1".data, .str "11045".data)] =
      .ok ([Entry.errs "11045".data [Msg.bundled "11045".data]], .rejected) := by
  constructor
  · rfl
  · rfl

theorem foldUnits (span : List (PyString × PyVal)) :
    (∀ hv ∈ span, containsSub "UNIT".data (upperL hv.1) = true → blankCell hv.2 = true) →
    ∀ acc : PyVal × List PyString × List PyString,
      (span.foldl spanStep acc).1 = if spanHasUnit span then PyVal.num 0 else acc.1 := by
  induction span with
  | nil =>
    intro _ acc
    simp [spanHasUnit]
  | cons hv rest ih =>
    intro hblank acc
    rw [List.foldl_cons]
    have hrest := ih (fun hv' h' hu' => hblank hv' (List.mem_cons_of_mem _ h') hu')
    by_cases hu : containsSub "UNIT".data (upperL hv.1) = true
    · have hbb := hblank hv (List.mem_cons_self _ _) hu
      rw [blankCell] at hbb
      have hb : (notna hv.2 && !(trimL (pyStr hv.2)).isEmpty) = false := by
        cases hx : (notna hv.2 && !(trimL (pyStr hv.2)).isEmpty)
        · rfl
        · rw [hx] at hbb
          simp at hbb
      have hstep : (spanStep acc hv).1 = PyVal.num 0 := by
        obtain ⟨u, d, m⟩ := acc
        simp [spanStep, hu, unitsOf, hb]
      have hcons : spanHasUnit (hv :: rest) = true := by
        simp [spanHasUnit, hu]
      rw [hrest (spanStep acc hv), hcons, if_pos rfl, hstep]
      split <;> rfl
    · have hu' : containsSub "UNIT".data (upperL hv.1) = false := by simpa using hu
      have hstep : (spanStep acc hv).1 = acc.1 := by
        obtain ⟨u, d, m⟩ := acc
        simp only [spanStep, hu', Bool.false_eq_true, if_false]
        split
        · rfl
        · split <;> rfl
      have hcons : spanHasUnit (hv :: rest) = spanHasUnit rest := by
        simp [spanHasUnit, hu']
      rw [hrest (spanStep acc hv), hcons, hstep]

theorem evalGroup_missing_units_iff (data : MasterIndex) (allCodes : List PyString)
    (g : CptGroup) (msgs : List Msg) (h : evalGroup data allCodes g = .ok msgs) :
    Msg.missing_units ∈ msgs ↔ (g.code ≠ [] ∧ pyEqZero g.units = true) := by
  by_cases h1 : g.code = []
  · rw [evalGroup_nil_code_eq data allCodes g h1] at h
    obtain rfl := Except.ok.inj h
    simp only [h1, ne_eq, not_true_eq_false, false_and, iff_false]
    split <;> simp
  · cases h2 : data.valid_cpts.contains g.code with
    | false =>
      rw [evalGroup_invalid_eq data allCodes g h1 h2] at h
      obtain rfl := Except.ok.inj h
      by_cases hz : pyEqZero g.units = true
      · rw [if_pos hz]
        constructor
        · intro _
          exact ⟨h1, hz⟩
        · intro _
          exact List.mem_append.mpr (Or.inl (List.mem_append.mpr (Or.inr (by simp))))
      · rw [if_neg hz]
        constructor
        · intro hm
          exfalso
          rcases List.mem_append.mp hm with hm' | hm'
          · rcases List.mem_append.mp hm' with hm2 | hm2
            · revert hm2
              split <;> simp
            · simp at hm2
          · simp at hm'
        · rintro ⟨_, hzz⟩
          exact absurd hzz hz
    | true =>
      cases h4 : check4 data g.code g.units with
      | error e =>
        have h2' : g.code ∈ data.valid_cpts := by simpa using h2
        rw [evalGroup] at h
        simp [h1, h2', h4] at h
      | ok e4 =>
        rw [evalGroup_valid_eq data allCodes g e4 h1 h2 h4] at h
        obtain rfl := Except.ok.inj h
        have hc5 : Msg.missing_units ∉ check5 data allCodes g.code g.mods := by
          intro hm
          obtain ⟨o, ho⟩ := check5_all_bundled data allCodes g.code g.mods _ hm
          exact Msg.noConfusion ho
        have he4 : Msg.missing_units ∉ e4 := by
          intro hm
          rcases check4_shape data g.code g.units e4 h4 with rfl | ⟨lim, rfl⟩
          · simp at hm
          · simp at hm
        constructor
        · intro hm
          rcases List.mem_append.mp hm with hm' | hm'
          · rcases List.mem_append.mp hm' with hm2 | hm2
            · rcases List.mem_append.mp hm2 with hm3 | hm3
              · revert hm3
                split <;> simp
              · refine ⟨h1, ?_⟩
                revert hm3
                split
                · intro _
                  assumption
                · simp
            · exact absurd hm2 he4
          · exact absurd hm' hc5
        · rintro ⟨_, hz⟩
          exact List.mem_append.mpr (Or.inl (List.mem_append.mpr (Or.inl
            (List.mem_append.mpr (Or.inr (by simp [hz]))))))

/-- **C4**: a code position with no units column in its span keeps the
default `units = 1` and never gets a `ZERO_UNITS` message, while a position
whose units cells are present but all blank/NaN is recorded with `units = 0`
and (when a code is present) gets a `ZERO_UNITS` message — observably
distinct outcomes. -/
theorem units_default_vs_blank (data : MasterIndex) (allCodes : List PyString)
    (code : PyString) (span : List (PyString × PyVal)) :
    (spanHasUnit span = false →
      (mkGroup code span).units = PyVal.num 1 ∧
      ∀ msgs, evalGroup data allCodes (mkGroup code span) = .ok msgs →
        Msg.missing_units ∉ msgs) ∧
    ((∃ hv ∈ span, containsSub "UNIT".data (upperL hv.1) = true) →
     (∀ hv ∈ span, containsSub "UNIT".data (upperL hv.1) = true → blankCell hv.2 = true) →
      (mkGroup code span).units = PyVal.num 0 ∧
      (code ≠ [] → ∀ msgs, evalGroup data allCodes (mkGroup code span) = .ok msgs →
        Msg.missing_units ∈ msgs)) := by
  constructor
  · intro hno
    have hb : ∀ hv ∈ span, containsSub "UNIT".data (upperL hv.1) = true →
        blankCell hv.2 = true := by
      intro hv hm hu
      rw [spanHasUnit, List.any_eq_false] at hno
      exact absurd hu (hno hv hm)
    have hu1 : (mkGroup code span).units = PyVal.num 1 := by
      show (span.foldl spanStep (.num 1, [], [])).1 = _
      rw [foldUnits span hb, hno]
      rfl
    refine ⟨hu1, ?_⟩
    intro msgs h hm
    obtain ⟨_, hz⟩ := (evalGroup_missing_units_iff data allCodes _ msgs h).mp hm
    rw [hu1] at hz
    exact absurd hz (by decide)
  · intro hex hblank
    have hhas : spanHasUnit span = true := by
      obtain ⟨hv, hm, hu⟩ := hex
      exact List.any_eq_true.mpr ⟨hv, hm, hu⟩
    have hu0 : (mkGroup code span).units = PyVal.num 0 := by
      show (span.foldl spanStep (.num 1, [], [])).1 = _
      rw [foldUnits span hblank, hhas]
      rfl
    refine ⟨hu0, ?_⟩
    intro hcode msgs h
    refine (evalGroup_missing_units_iff data allCodes _ msgs h).mpr ⟨hcode, ?_⟩
    rw [hu0]
    decide

theorem units_default_vs_blank_witness :
    (mkGroup "00100".data [("Units1".data, PyVal.nan)]).units = PyVal.num 0 ∧
    Msg.missing_units ∈ [Msg.missing_units] :=
  let t := (units_default_vs_blank { valid_cpts := ["00100".data], mue := [], ncci := [] }
    [] "00100".data [("Units1".data, PyVal.nan)]).2
    ⟨("Units1".data, PyVal.nan), by decide, by decide⟩ (by decide)
  ⟨t.1, t.2 (by decide) [Msg.missing_units] rfl⟩

theorem exists_cons_of_clean (data : MasterIndex) (allCodes : List PyString)
    (g : CptGroup) (gs : List CptGroup) (msgs : List Msg)
    (hE : evalGroup data allCodes g = .ok msgs) (hm : msgs = []) :
    (∃ g' ∈ g :: gs, ∃ ms, evalGroup data allCodes g' = .ok ms ∧ ms ≠ []) ↔
    (∃ g' ∈ gs, ∃ ms, evalGroup data allCodes g' = .ok ms ∧ ms ≠ []) := by
  constructor
  · rintro ⟨g', hg', ms, hok, hne⟩
    rcases List.mem_cons.mp hg' with rfl | hgs
    · rw [hE] at hok
      obtain rfl := Except.ok.inj hok
      exact absurd hm hne
    · exact ⟨g', hgs, ms, hok, hne⟩
  · rintro ⟨g', hgs, ms, hok, hne⟩
    exact ⟨g', List.mem_cons_of_mem _ hgs, ms, hok, hne⟩

theorem evalGroups_rej_iff (data : MasterIndex) (allCodes : List PyString) :
    ∀ (gs : List CptGroup) (es : List Entry) (rej : Bool),
      evalGroups data allCodes gs = .ok (es, rej) →
      (rej = true ↔ ∃ g ∈ gs, ∃ msgs, evalGroup data allCodes g = .ok msgs ∧ msgs ≠ []) := by
  intro gs
  induction gs with
  | nil =>
    intro es rej h
    rw [evalGroups] at h
    obtain h' := Except.ok.inj h
    cases h'
    simp
  | cons g gs ih =>
    intro es rej h
    rw [evalGroups] at h
    cases hE : evalGroup data allCodes g with
    | error e =>
      rw [hE] at h
      exact absurd h (by simp)
    | ok msgs =>
      rw [hE] at h
      dsimp only at h
      by_cases hm : msgs = []
      · rw [if_pos hm] at h
        by_cases hc : g.code = []
        · rw [if_pos hc] at h
          rw [ih es rej h, exists_cons_of_clean data allCodes g gs msgs hE hm]
        · rw [if_neg hc] at h
          cases hI : pyInt g.units with
          | error e =>
            rw [hI] at h
            exact absurd h (by simp)
          | ok n =>
            rw [hI] at h
            dsimp only at h
            cases hR : evalGroups data allCodes gs with
            | error e =>
              rw [hR] at h
              exact absurd h (by simp)
            | ok pr =>
              obtain ⟨es', rej'⟩ := pr
              rw [hR] at h
              dsimp only at h
              obtain ⟨h1, h2⟩ := Prod.mk.inj (Except.ok.inj h)
              subst h1
              subst h2
              rw [ih es' rej' hR, exists_cons_of_clean data allCodes g gs msgs hE hm]
      · rw [if_neg hm] at h
        cases hR : evalGroups data allCodes gs with
        | error e =>
          rw [hR] at h
          exact absurd h (by simp)
        | ok pr =>
          obtain ⟨es', rej'⟩ := pr
          rw [hR] at h
          dsimp only at h
          obtain ⟨h1, h2⟩ := Prod.mk.inj (Except.ok.inj h)
          subst h1
          subst h2
          constructor
          · intro _
            exact ⟨g, List.mem_cons_self _ _, msgs, hE, hm⟩
          · intro _
            rfl

theorem evalGroups_errs_mem (data : MasterIndex) (allCodes : List PyString)
    (g : CptGroup) (msgs : List Msg)
    (hE : evalGroup data allCodes g = .ok msgs) (hne : msgs ≠ []) :
    ∀ (gs : List CptGroup) (es : List Entry) (rej : Bool),
      evalGroups data allCodes gs = .ok (es, rej) → g ∈ gs →
      Entry.errs (if g.code = [] then emptyCptLabel else g.code) msgs ∈ es := by
  intro gs
  induction gs with
  | nil =>
    intro es rej _ hg
    simp at hg
  | cons g' gs ih =>
    intro es rej h hg
    rw [evalGroups] at h
    cases hE' : evalGroup data allCodes g' with
    | error e =>
      rw [hE'] at h
      exact absurd h (by simp)
    | ok msgs' =>
      rw [hE'] at h
      dsimp only at h
      rcases List.mem_cons.mp hg with rfl | hgs
      · rw [hE] at hE'
        obtain rfl := Except.ok.inj hE'
        rw [if_neg hne] at h
        cases hR : evalGroups data allCodes gs with
        | error e =>
          rw [hR] at h
          exact absurd h (by simp)
        | ok pr =>
          obtain ⟨es', rej'⟩ := pr
          rw [hR] at h
          dsimp only at h
          obtain ⟨h1, h2⟩ := Prod.mk.inj (Except.ok.inj h)
          subst h1
          subst h2
          exact List.mem_cons_self _ _
      · by_cases hm' : msgs' = []
        · rw [if_pos hm'] at h
          by_cases hc' : g'.code = []
          · rw [if_pos hc'] at h
            exact ih es rej h hgs
          · rw [if_neg hc'] at h
            cases hI : pyInt g'.units with
            | error e =>
              rw [hI] at h
              exact absurd h (by simp)
            | ok n =>
              rw [hI] at h
              dsimp only at h
              cases hR : evalGroups data allCodes gs with
              | error e =>
                rw [hR] at h
                exact absurd h (by simp)
              | ok pr =>
                obtain ⟨es', rej'⟩ := pr
                rw [hR] at h
                dsimp only at h
                obtain ⟨h1, h2⟩ := Prod.mk.inj (Except.ok.inj h)
                subst h1
                subst h2
                exact List.mem_cons_of_mem _ (ih es' rej' hR hgs)
        · rw [if_neg hm'] at h
          cases hR : evalGroups data allCodes gs with
          | error e =>
            rw [hR] at h
            exact absurd h (by simp)
          | ok pr =>
            obtain ⟨es', rej'⟩ := pr
            rw [hR] at h
            dsimp only at h
            obtain ⟨h1, h2⟩ := Prod.mk.inj (Except.ok.inj h)
            subst h1
            subst h2
            exact List.mem_cons_of_mem _ (ih es' rej' hR hgs)

/-- **C1**: a row's status is `REJECTED` exactly when at least one of its
decomposed entries produced at least one message from checks 1-5; a row all
of whose entries are message-free is `ACCEPTED`. -/
theorem evalRow_rejected_iff (data : MasterIndex) (row : Row) (res : List Entry × Status)
    (h : evalRow data row = .ok res) :
    res.2 = .rejected ↔
      ∃ g ∈ gatherGroups row, ∃ msgs,
        evalGroup data (rowCodes (gatherGroups row)) g = .ok msgs ∧ msgs ≠ [] := by
  rw [evalRow] at h
  cases hG : evalGroups data (rowCodes (gatherGroups row)) (gatherGroups row) with
  | error e =>
    rw [hG] at h
    exact absurd h (by simp)
  | ok pr =>
    obtain ⟨es, rej⟩ := pr
    rw [hG] at h
    dsimp only at h
    obtain rfl := Except.ok.inj h
    rw [← evalGroups_rej_iff data (rowCodes (gatherGroups row)) (gatherGroups row) es rej hG]
    cases rej <;> simp

theorem evalRow_rejected_iff_witness :
    (evalRow { valid_cpts := ["00100".data], mue := [], ncci := [] }
        [("CPT1".data, PyVal.str "99999".data)] =
      .ok ([Entry.errs "99999".data [Msg.invalid_cpt]], Status.rejected)) ∧
    (([Entry.errs "99999".data [Msg.invalid_cpt]], Status.rejected) :
        List Entry × Status).2 = Status.rejected :=
  ⟨rfl,
    (evalRow_rejected_iff { valid_cpts := ["00100".data], mue := [], ncci := [] }
        [("CPT1".data, PyVal.str "99999".data)]
        ([Entry.errs "99999".data [Msg.invalid_cpt]], Status.rejected) rfl).mpr
      ⟨mkGroup "99999".data [], by decide, [Msg.invalid_cpt], rfl, by decide⟩⟩

theorem gather_orphan_eq :
    ∀ (row : Row), ∀ g ∈ gatherGroups row,
      g.is_orphan = (decide (g.code = []) && (!g.dxs.isEmpty || !g.mods.isEmpty)) := by
  intro row
  induction row with
  | nil =>
    intro g hg
    simp [gatherGroups] at hg
  | cons cv rest ih =>
    obtain ⟨col, v⟩ := cv
    intro g hg
    rw [gatherGroups] at hg
    by_cases hc : isCptHeader col = true
    · rw [if_pos hc] at hg
      rcases List.mem_cons.mp hg with rfl | hgs
      · rfl
      · exact ih g hgs
    · rw [if_neg hc] at hg
      exact ih g hg

/-- **C5 (amended)**: a decomposed position whose code cell normalizes to the
empty string and whose span carries *modifier or diagnosis* data is flagged
`MISSING_CODE` and rejects the row.  (Adjacent *units* data alone does not
trigger the orphan check — see the counterexample.) -/
theorem orphan_dx_mod_rejected (data : MasterIndex) (row : Row) (g : CptGroup)
    (res : List Entry × Status) (hg : g ∈ gatherGroups row) (hcode : g.code = [])
    (hdata : g.dxs ≠ [] ∨ g.mods ≠ []) (h : evalRow data row = .ok res) :
    res.2 = .rejected ∧
      ∃ msgs, Entry.errs emptyCptLabel msgs ∈ res.1 ∧ Msg.missing_cpt ∈ msgs := by
  have horph : g.is_orphan = true := by
    rw [gather_orphan_eq row g hg, hcode]
    rcases hdata with hd | hd
    · have : g.dxs.isEmpty = false := by
        cases hx : g.dxs with
        | nil => exact absurd hx hd
        | cons a as => rfl
      simp [this]
    · have : g.mods.isEmpty = false := by
        cases hx : g.mods with
        | nil => exact absurd hx hd
        | cons a as => rfl
      simp [this]
  have hE : evalGroup data (rowCodes (gatherGroups row)) g = .ok [Msg.missing_cpt] := by
    rw [evalGroup_nil_code_eq data _ g hcode, horph]
    rfl
  rw [evalRow] at h
  cases hG : evalGroups data (rowCodes (gatherGroups row)) (gatherGroups row) with
  | error e =>
    rw [hG] at h
    exact absurd h (by simp)
  | ok pr =>
    obtain ⟨es, rej⟩ := pr
    rw [hG] at h
    dsimp only at h
    obtain rfl := Except.ok.inj h
    have hrej : rej = true :=
      (evalGroups_rej_iff data _ _ es rej hG).mpr
        ⟨g, hg, [Msg.missing_cpt], hE, by simp⟩
    have hmem := evalGroups_errs_mem data (rowCodes (gatherGroups row)) g
      [Msg.missing_cpt] hE (by simp) (gatherGroups row) es rej hG hg
    rw [if_pos hcode] at hmem
    refine ⟨?_, ⟨[Msg.missing_cpt], hmem, by simp⟩⟩
    rw [hrej]
    rfl

theorem orphan_dx_mod_rejected_witness :
    (([Entry.errs emptyCptLabel [Msg.missing_cpt]], Status.rejected) :
        List Entry × Status).2 = Status.rejected ∧
    ∃ msgs, Entry.errs emptyCptLabel msgs ∈ [Entry.errs emptyCptLabel [Msg.missing_cpt]] ∧
      Msg.missing_cpt ∈ msgs :=
  orphan_dx_mod_rejected { valid_cpts := [], mue := [], ncci := [] }
    [("CPT1".data, PyVal.nan), ("Modifier1".data, PyVal.str "59".data)]
    (mkGroup [] [("Modifier1".data, PyVal.str "59".data)])
    ([Entry.errs emptyCptLabel [Msg.missing_cpt]], Status.rejected)
    (by decide) rfl (Or.inr (by decide)) rfl

/-- **C5, counterexample to the claim as stated**: an empty code cell whose
span contains (only) adjacent *units* data is not flagged — the orphan
check looks at modifiers/diagnoses only, so the row is `ACCEPTED` with no
message, not `REJECTED` with `MISSING_CODE`. -/
theorem orphan_units_only_cex :
    (gatherGroups [("CPT1".data, PyVal.nan), ("Units1".data, PyVal.num 5)]).map
        CptGroup.code = [[]] ∧
    spanHasUnit [("Units1".data, PyVal.num 5)] = true ∧
    evalRow { valid_cpts := ["11045".data], mue := [], ncci := [] }
      [("CPT1".data, PyVal.nan), ("Units1".data, PyVal.num 5)] =
      .ok ([], Status.accepted) :=
  ⟨rfl, rfl, rfl⟩

theorem buildMue_none_iff (osh : Option Sheet) :
    buildMue osh = none ↔ malformedRuleSheet 2 osh := by
  cases osh with
  | none => simp [buildMue, malformedRuleSheet]
  | some sh =>
    rw [buildMue]
    by_cases he : dfEmpty sh = true
    · rw [if_pos he]
      simp [malformedRuleSheet, he]
    · have he' : dfEmpty sh = false := by
        cases hx : dfEmpty sh
        · rfl
        · exact absurd hx he
      rw [if_neg he]
      by_cases hc : sh.ncols < 2
      · rw [if_pos hc]
        simp [malformedRuleSheet, he', hc]
      · rw [if_neg hc]
        simp [malformedRuleSheet, he', hc]

theorem buildNcci_none_iff (osh : Option Sheet) :
    buildNcci osh = none ↔ malformedRuleSheet 6 osh := by
  cases osh with
  | none => simp [buildNcci, malformedRuleSheet]
  | some sh =>
    rw [buildNcci]
    by_cases he : dfEmpty sh = true
    · rw [if_pos he]
      simp [malformedRuleSheet, he]
    · have he' : dfEmpty sh = false := by
        cases hx : dfEmpty sh
        · rfl
        · exact absurd hx he
      rw [if_neg he]
      by_cases hc : sh.ncols < 6
      · rw [if_pos hc]
        simp [malformedRuleSheet, he', hc]
      · rw [if_neg hc]
        simp [malformedRuleSheet, he', hc]

/-- **C8 (amended)**: building the master index fails (returns no index)
exactly when the workbook is unreadable or a rule sheet that is *present and
nonempty* has too few columns for its positional reads (< 2 for the
unit-limit sheet, < 6 for the bundling sheet).  An *absent* rule sheet does
not fail — it yields an empty rule map.  On failure no partial index is
produced (the result is `none`). -/
theorem load_master_data_none_iff (wb : Workbook) :
    load_master_data wb = none ↔
      wb = .unreadable ∨
        ∃ sheets, wb = .content sheets ∧
          (malformedRuleSheet 2 (lookupSheet sheets "MUE_Edits".data) ∨
           malformedRuleSheet 6 (lookupSheet sheets "NCCI_Edits".data)) := by
  cases wb with
  | unreadable =>
    constructor
    · intro _
      exact Or.inl rfl
    · intro _
      rfl
  | content sheets =>
    cases hm : buildMue (lookupSheet sheets "MUE_Edits".data) with
    | none =>
      constructor
      · intro _
        exact Or.inr ⟨sheets, rfl, Or.inl ((buildMue_none_iff _).mp hm)⟩
      · intro _
        simp [load_master_data, hm]
    | some mue =>
      cases hn : buildNcci (lookupSheet sheets "NCCI_Edits".data) with
      | none =>
        constructor
        · intro _
          exact Or.inr ⟨sheets, rfl, Or.inr ((buildNcci_none_iff _).mp hn)⟩
        · intro _
          simp [load_master_data, hm, hn]
      | some ncci =>
        constructor
        · intro h
          rw [load_master_data] at h
          simp [hm, hn] at h
        · rintro (h | ⟨sheets', heq, hmal | hmal⟩)
          · exact absurd h (by simp)
          · obtain rfl := Workbook.content.inj heq
            rw [← buildMue_none_iff] at hmal
            rw [hm] at hmal
            exact absurd hmal (by simp)
          · obtain rfl := Workbook.content.inj heq
            rw [← buildNcci_none_iff] at hmal
            rw [hn] at hmal
            exact absurd hmal (by simp)

theorem load_master_data_none_iff_witness :
    load_master_data Workbook.unreadable = none :=
  (load_master_data_none_iff Workbook.unreadable).mpr (Or.inl rfl)

/-- **C8, counterexample to the claim as stated**: a workbook in which both
rule sheets ("MUE_Edits", "NCCI_Edits") are absent does *not* fail — the
loader returns an index (with empty rule maps) instead of the
`MasterDataError` the claim requires for a missing required sheet. -/
theorem load_absent_sheets_cex :
    lookupSheet [("Codes".data, { ncols := 1, rows := [[PyVal.str "00100".data]] })]
      "MUE_Edits".data = none ∧
    lookupSheet [("Codes".data, { ncols := 1, rows := [[PyVal.str "00100".data]] })]
      "NCCI_Edits".data = none ∧
    load_master_data (.content [("Codes".data,
        { ncols := 1, rows := [[PyVal.str "00100".data]] })]) =
      some { valid_cpts := ["00100".data], mue := [], ncci := [] } :=
  ⟨rfl, rfl, rfl⟩

theorem foldUnits_num (span : List (PyString × PyVal)) :
    (∀ hv ∈ span, containsSub "UNIT".data (upperL hv.1) = true → unitCellOk hv.2 = true) →
    ∀ acc : PyVal × List PyString × List PyString,
      (∃ q, acc.1 = PyVal.num q) → ∃ q, (span.foldl spanStep acc).1 = PyVal.num q := by
  induction span with
  | nil =>
    intro _ acc hacc
    exact hacc
  | cons hv rest ih =>
    intro hok acc hacc
    rw [List.foldl_cons]
    refine ih (fun hv' h' hu' => hok hv' (List.mem_cons_of_mem _ h') hu') _ ?_
    by_cases hu : containsSub "UNIT".data (upperL hv.1) = true
    · obtain ⟨u, d, m⟩ := acc
      simp only [spanStep, hu, if_pos]
      cases hv2 : hv.2 with
      | nan => exact ⟨0, rfl⟩
      | num q =>
        rw [unitsOf]
        split
        · exact ⟨q, rfl⟩
        · exact ⟨0, rfl⟩
      | str s =>
        have := hok hv (List.mem_cons_self _ _) hu
        rw [hv2] at this
        rw [unitsOf]
        simp only [unitCellOk] at this
        simp [pyStr, this]
    · have hu' : containsSub "UNIT".data (upperL hv.1) = false := by
        cases hx : containsSub "UNIT".data (upperL hv.1)
        · rfl
        · exact absurd hx hu
      obtain ⟨u, d, m⟩ := acc
      simp only [spanStep, hu', Bool.false_eq_true, if_false]
      split
      · exact hacc
      · split
        · exact hacc
        · exact hacc

theorem gather_units_num :
    ∀ (row : Row), rowUnitsOk row = true →
      ∀ g ∈ gatherGroups row, ∃ q, g.units = PyVal.num q := by
  intro row
  induction row with
  | nil =>
    intro _ g hg
    simp [gatherGroups] at hg
  | cons cv rest ih =>
    obtain ⟨col, v⟩ := cv
    intro hrow g hg
    have hrest : rowUnitsOk rest = true := by
      rw [rowUnitsOk, List.all_cons] at hrow
      rw [rowUnitsOk]
      exact (Bool.and_eq_true_iff.mp hrow).2
    rw [gatherGroups] at hg
    by_cases hc : isCptHeader col = true
    · rw [if_pos hc] at hg
      rcases List.mem_cons.mp hg with rfl | hgs
      · refine foldUnits_num (rest.takeWhile (fun p => !isCptHeader p.1)) ?_
          (.num 1, [], []) ⟨1, rfl⟩
        intro hv hm hu
        have hvmem : hv ∈ rest := List.takeWhile_subset _ hm
        rw [rowUnitsOk] at hrest
        have hall := List.all_eq_true.mp hrest hv hvmem
        rw [hu] at hall
        simpa using hall
      · exact ih hrest g hgs
    · rw [if_neg hc] at hg
      exact ih hrest g hg

theorem evalGroup_ok_total (data : MasterIndex) (allCodes : List PyString) (g : CptGroup)
    (hq : ∃ q, g.units = PyVal.num q) (hmue : mueValuesOk data = true) :
    ∃ msgs, evalGroup data allCodes g = .ok msgs := by
  obtain ⟨q, hu⟩ := hq
  by_cases h1 : g.code = []
  · exact ⟨_, evalGroup_nil_code_eq data allCodes g h1⟩
  · cases h2 : data.valid_cpts.contains g.code with
    | false => exact ⟨_, evalGroup_invalid_eq data allCodes g h1 h2⟩
    | true =>
      have h4 : ∃ e4, check4 data g.code g.units = .ok e4 := by
        rw [check4]
        cases hdl : dlookup data.mue g.code with
        | none => exact ⟨[], rfl⟩
        | some lim =>
          have hlim := dlookup_mem _ _ _ hdl
          rw [mueValuesOk] at hmue
          have hlim' := List.all_eq_true.mp hmue _ hlim
          cases lim with
          | nan =>
            rw [hu]
            exact ⟨_, rfl⟩
          | num p =>
            rw [hu]
            exact ⟨_, rfl⟩
          | str s => exact absurd hlim' (by simp)
      obtain ⟨e4, h4'⟩ := h4
      exact ⟨_, evalGroup_valid_eq data allCodes g e4 h1 h2 h4'⟩

theorem evalGroups_ok_total (data : MasterIndex) (allCodes : List PyString)
    (hmue : mueValuesOk data = true) :
    ∀ gs : List CptGroup, (∀ g ∈ gs, ∃ q, g.units = PyVal.num q) →
      ∃ r, evalGroups data allCodes gs = .ok r := by
  intro gs
  induction gs with
  | nil =>
    intro _
    exact ⟨([], false), rfl⟩
  | cons g gs ih =>
    intro hall
    obtain ⟨msgs, hE⟩ := evalGroup_ok_total data allCodes g
      (hall g (List.mem_cons_self _ _)) hmue
    obtain ⟨⟨es, rej⟩, hR⟩ := ih (fun g' h' => hall g' (List.mem_cons_of_mem _ h'))
    rw [evalGroups, hE]
    dsimp only
    by_cases hm : msgs = []
    · rw [if_pos hm]
      by_cases hc : g.code = []
      · rw [if_pos hc]
        exact ⟨_, hR⟩
      · rw [if_neg hc]
        obtain ⟨q, hu⟩ := hall g (List.mem_cons_self _ _)
        have hI : pyInt g.units = .ok (ratTrunc q) := by
          rw [hu]
          rfl
        rw [hI]
        dsimp only
        rw [hR]
        exact ⟨_, rfl⟩
    · rw [if_neg hm, hR]
      exact ⟨_, rfl⟩

/-- **C9 (amended)**: row evaluation raises no exception *provided* every
units cell in the claim rows is numeric, missing, or blank, and every stored
unit-limit value is numeric or missing.  (Without that proviso the claim as
stated is false: a non-blank string units value is passed through raw and
the MUE comparison `u > limit`, or the clean-line `int(u)`, raises — see the
counterexample.)  Malformed code/modifier/diagnosis cells still never raise:
they degrade to `""`/`0`/empty via the normalizer and decomposer. -/
theorem run_validation_total (rows : List Row) (data : MasterIndex)
    (h1 : rows.all rowUnitsOk = true) (h2 : mueValuesOk data = true) :
    ∃ res, run_validation rows data = .ok res := by
  induction rows with
  | nil => exact ⟨[], rfl⟩
  | cons r rs ih =>
    rw [List.all_cons] at h1
    obtain ⟨hr, hrs⟩ := Bool.and_eq_true_iff.mp h1
    obtain ⟨res1, hres1⟩ : ∃ x, evalRow data r = .ok x := by
      rw [evalRow]
      obtain ⟨⟨es, rej⟩, hG⟩ := evalGroups_ok_total data (rowCodes (gatherGroups r)) h2
        (gatherGroups r) (gather_units_num r hr)
      rw [hG]
      exact ⟨_, rfl⟩
    obtain ⟨rest, hrest⟩ := ih hrs
    rw [run_validation, hres1]
    dsimp only
    rw [hrest]
    exact ⟨_, rfl⟩

theorem run_validation_total_witness :
    (run_validation [[("CPT1".data, PyVal.str "11045".data), ("Units1".data, PyVal.num 2)]]
      { valid_cpts := ["11045".data], mue := [("11045".data, PyVal.num 2)],
        ncci := [] }).toOption.isSome = true := by
  obtain ⟨res, hres⟩ := run_validation_total
    [[("CPT1".data, PyVal.str "11045".data), ("Units1".data, PyVal.num 2)]]
    { valid_cpts := ["11045".data], mue := [("11045".data, PyVal.num 2)], ncci := [] }
    (by decide) (by decide)
  rw [hres]
  rfl

/-- **C9, counterexample to the claim as stated**: a valid code with an MUE
limit and a *string* units cell makes the evaluator compare a `str` with a
number — Python raises `TypeError`, so an exception does escape row
evaluation. -/
theorem run_validation_raises_cex :
    run_validation [[("CPT1".data, PyVal.str "11045".data),
        ("Units1".data, PyVal.str "abc".data)]]
      { valid_cpts := ["11045".data], mue := [("11045".data, PyVal.num 2)], ncci := [] } =
      .error .typeError := rfl

theorem dlookup_isSome_ext (d1 d2 : MasterIndex) (hn : sameKeys d1.ncci d2.ncci)
    (k : PyString × PyString) :
    (dlookup d1.ncci k).isSome = (dlookup d2.ncci k).isSome := by
  by_cases hk : k ∈ d1.ncci.map Prod.fst
  · rw [(dlookup_isSome_iff _ _).mpr hk, (dlookup_isSome_iff _ _).mpr (hn.1 k hk)]
  · have e1 : (dlookup d1.ncci k).isSome = false := by
      cases hx : (dlookup d1.ncci k).isSome
      · rfl
      · exact absurd ((dlookup_isSome_iff _ _).mp hx) hk
    have e2 : (dlookup d2.ncci k).isSome = false := by
      cases hx : (dlookup d2.ncci k).isSome
      · rfl
      · exact absurd ((dlookup_isSome_iff _ _).mp hx) (fun h => hk (hn.2 k h))
    rw [e1, e2]

theorem check4_ext (d1 d2 : MasterIndex) (hm : d1.mue = d2.mue)
    (cpt : PyString) (u : PyVal) : check4 d1 cpt u = check4 d2 cpt u := by
  rw [check4, check4, hm]

theorem check5_ext (d1 d2 : MasterIndex) (hn : sameKeys d1.ncci d2.ncci)
    (allCodes : List PyString) (cpt : PyString) (mods : List PyString) :
    check5 d1 allCodes cpt mods = check5 d2 allCodes cpt mods := by
  rw [check5, check5]
  have hf : (fun other : PyString =>
      if ((dlookup d1.ncci (other, cpt)).isSome && !hasBypass mods) = true then
        some (Msg.bundled other)
      else none) =
      (fun other : PyString =>
      if ((dlookup d2.ncci (other, cpt)).isSome && !hasBypass mods) = true then
        some (Msg.bundled other)
      else none) := by
    funext other
    rw [dlookup_isSome_ext d1 d2 hn (other, cpt)]
  rw [hf]

theorem evalGroup_ext (d1 d2 : MasterIndex) (hv : d1.valid_cpts = d2.valid_cpts)
    (hm : d1.mue = d2.mue) (hn : sameKeys d1.ncci d2.ncci)
    (allCodes : List PyString) (g : CptGroup) :
    evalGroup d1 allCodes g = evalGroup d2 allCodes g := by
  rw [evalGroup, evalGroup, hv,
    check4_ext d1 d2 hm g.code g.units, check5_ext d1 d2 hn allCodes g.code g.mods]

theorem evalGroups_ext (d1 d2 : MasterIndex) (hv : d1.valid_cpts = d2.valid_cpts)
    (hm : d1.mue = d2.mue) (hn : sameKeys d1.ncci d2.ncci) (allCodes : List PyString) :
    ∀ gs : List CptGroup, evalGroups d1 allCodes gs = evalGroups d2 allCodes gs := by
  intro gs
  induction gs with
  | nil => rfl
  | cons g gs ih =>
    rw [evalGroups, evalGroups, evalGroup_ext d1 d2 hv hm hn allCodes g, ih]

theorem evalRow_ext (d1 d2 : MasterIndex) (hv : d1.valid_cpts = d2.valid_cpts)
    (hm : d1.mue = d2.mue) (hn : sameKeys d1.ncci d2.ncci) (row : Row) :
    evalRow d1 row = evalRow d2 row := by
  rw [evalRow, evalRow, evalGroups_ext d1 d2 hv hm hn]

/-- **C10**: validation depends on the bundling map only through its key
set — two master indexes with the same valid codes, the same unit limits,
and bundling maps with the same keys (whatever their stored column-5
indicator values) validate every claim row identically: same per-code
messages, same status. -/
theorem run_validation_ncci_values_irrelevant (d1 d2 : MasterIndex) (rows : List Row)
    (hv : d1.valid_cpts = d2.valid_cpts) (hm : d1.mue = d2.mue)
    (hn : sameKeys d1.ncci d2.ncci) :
    run_validation rows d1 = run_validation rows d2 := by
  induction rows with
  | nil => rfl
  | cons r rs ih =>
    rw [run_validation, run_validation, evalRow_ext d1 d2 hv hm hn r, ih]

theorem run_validation_ncci_values_irrelevant_witness :
    run_validation [[("CPT1".data, PyVal.str "11045".data),
        ("CPT2".data, PyVal.str "99213".data)]]
      { valid_cpts := ["11045".data, "99213".data], mue := [],
        ncci := [(("11045".data, "99213".data), "1".data)] } =
    run_validation [[("CPT1".data, PyVal.str "11045".data),
        ("CPT2".data, PyVal.str "99213".data)]]
      { valid_cpts := ["11045".data, "99213".data], mue := [],
        ncci := [(("11045".data, "99213".data), "0".data)] } :=
  run_validation_ncci_values_irrelevant _ _ _ rfl rfl ⟨by decide, by decide⟩
